import Mathlib

/-!
# Launcher list model (`src/backend/launcher/launchermodel.cpp`)

A shallow embedding of `LauncherModel`: the list `m_list` of `Application`
objects, the four handlers connected to the application manager in the
constructor, and the methods `rowCount`, `get`, `indexFromAppId`, `pin`,
`unpin`.

* `m_list` (a `QList<Application *>`) is a `List Application`; an object
  mutated through its pointer is replaced in place at its row.
* `m_pids` (a `QSet<pid_t>`) is a `Finset Int`.
* The signals of `QAbstractListModel` that a handler emits are returned as a
  list next to the new `m_list`, in emission order.
-/

namespace LauncherModel

/-- Modelled from the spec: the enumeration `Application::State` of the class
`Application` (application.h is not among the sources).  The model uses the
two values that launchermodel.cpp names, `Application::Running` and
`Application::NotRunning`. -/
inductive State where
  | NotRunning
  | Running
deriving DecidableEq, Repr

/-- Modelled from the spec: the class `Application` (application.h and
application.cpp are not among the sources).  One field per accessor that
launchermodel.cpp uses: `appId()`, the public set `m_pids`,
`isPinned()`/`setPinned`, `isFocused()`/`setFocused`, and
`setState`/`isRunning()`.  The desktop-file reference is left out: no handler
reads or writes it. -/
structure Application where
  appId : String
  m_pids : Finset Int
  m_pinned : Bool
  m_focused : Bool
  m_state : State
deriving DecidableEq

namespace Application

/-- Modelled from the spec: `Application::isPinned()`, the getter of the pinned flag. -/
def isPinned (app : Application) : Bool := app.m_pinned

/-- Modelled from the spec: `Application::isFocused()`, the getter of the focused flag. -/
def isFocused (app : Application) : Bool := app.m_focused

/-- Modelled from the spec: `Application::isRunning()`, true when the state
stored by `setState` is `Running`. -/
def isRunning (app : Application) : Bool := decide (app.m_state = State.Running)

/-- Modelled from the spec: `Application::setState(state)`, the setter of the state. -/
def setState (app : Application) (state : State) : Application :=
  { app with m_state := state }

/-- Modelled from the spec: `Application::setPinned(pinned)`, the setter of the pinned flag. -/
def setPinned (app : Application) (pinned : Bool) : Application :=
  { app with m_pinned := pinned }

/-- Modelled from the spec: `Application::setFocused(focused)`, the setter of the focused flag. -/
def setFocused (app : Application) (focused : Bool) : Application :=
  { app with m_focused := focused }

/-- The statement `app->m_pids.insert(pid)`. -/
def insertPid (app : Application) (pid : Int) : Application :=
  { app with m_pids := insert pid app.m_pids }

/-- The statement `app->m_pids.remove(pid)`. -/
def removePid (app : Application) (pid : Int) : Application :=
  { app with m_pids := app.m_pids.erase pid }

/-- Modelled from the spec: the constructor `Application(appId, pinned, parent)`
used for the seed.  The spec describes the seeded entries as pinned and not
running, with no process and no focus. -/
def create (appId : String) (pinned : Bool) : Application :=
  { appId := appId, m_pids := ∅, m_pinned := pinned, m_focused := false,
    m_state := State.NotRunning }

/-- Modelled from the spec: the constructor `Application(appId, parent)` used
by the applicationAdded handler: no process, not pinned, not focused.  The
state it starts in is not visible in launchermodel.cpp (the handler adds the
pid and calls no `setState`), so it is the parameter `fresh`. -/
def createUnpinned (fresh : State) (appId : String) : Application :=
  { appId := appId, m_pids := ∅, m_pinned := false, m_focused := false,
    m_state := fresh }

end Application

/-- Modelled from the spec: the state in which `Application(appId, parent)`
leaves the object it constructs.  The spec derives `running` from a non-empty
process set and a newly constructed object has no process, so it starts not
running, as the seeded entries built by `Application(appId, pinned, parent)` do. -/
def freshState : State := State.NotRunning

/-- A signal of `QAbstractListModel` emitted by the model: `dataChanged`
between two rows of column 0, or the insertion (`beginInsertRows` ...
`endInsertRows`) or removal (`beginRemoveRows` ... `endRemoveRows`) of the
inclusive row range `first .. last`. -/
inductive Signal where
  | dataChanged (topLeft bottomRight : Nat)
  | rowsInserted (first last : Nat)
  | rowsRemoved (first last : Nat)
deriving DecidableEq, Repr

/-- The loop shared by the handlers,
`for (int i = 0; i < m_list.size(); i++) { Application *app = m_list.at(i);
if (app->appId() == appId) { body; break; } }`, started at row `i`.
`body i app rest` receives the row, the object at that row and the rows after
it, and gives the rows that stand from `i` on afterwards with the signals
emitted.  The result is `none` when the loop ends without a match. -/
def forFirstMatch (appId : String)
    (body : Nat → Application → List Application → List Application × List Signal) :
    Nat → List Application → Option (List Application × List Signal)
  | _, [] => none
  | i, app :: rest =>
    if app.appId = appId then some (body i app rest)
    else
      match forFirstMatch appId body (i + 1) rest with
      | some r => some (app :: r.1, r.2)
      | none => none

/-- The handler connected to `ApplicationManager::applicationAdded`
(lines 51-70).  `fresh` is the state a newly constructed `Application` is in. -/
def applicationAdded (fresh : State) (m_list : List Application) (appId : String) (pid : Int) :
    List Application × List Signal :=
  match forFirstMatch appId
      (fun i app rest =>
        (((app.insertPid pid).setState State.Running) :: rest, [Signal.dataChanged i i]))
      0 m_list with
  | some r => r
  | none =>
    (m_list ++ [(Application.createUnpinned fresh appId).insertPid pid],
      [Signal.rowsInserted m_list.length m_list.length])

/-- The handler connected to `ApplicationManager::applicationRemoved`
(lines 71-96). -/
def applicationRemoved (m_list : List Application) (appId : String) (pid : Int) :
    List Application × List Signal :=
  match forFirstMatch appId
      (fun i app rest =>
        let app1 := app.removePid pid
        if app1.m_pids.card > 0 then (app1 :: rest, [])
        else if app1.isPinned then
          (((app1.setState State.NotRunning).setFocused false) :: rest,
            [Signal.dataChanged i i])
        else (rest, [Signal.rowsRemoved i i]))
      0 m_list with
  | some r => r
  | none => (m_list, [])

/-- The handler connected to `ApplicationManager::applicationFocused`
(lines 97-107). -/
def applicationFocused (m_list : List Application) (appId : String) :
    List Application × List Signal :=
  match forFirstMatch appId
      (fun i app rest => ((app.setFocused true) :: rest, [Signal.dataChanged i i]))
      0 m_list with
  | some r => r
  | none => (m_list, [])

/-- The handler connected to `ApplicationManager::applicationUnfocused`
(lines 108-118). -/
def applicationUnfocused (m_list : List Application) (appId : String) :
    List Application × List Signal :=
  match forFirstMatch appId
      (fun i app rest => ((app.setFocused false) :: rest, [Signal.dataChanged i i]))
      0 m_list with
  | some r => r
  | none => (m_list, [])

/-- The constructor's seed (lines 120-125): `beginInsertRows` announces the
rows `m_list.size() .. m_list.size() + 2` of the empty list, then the two
pinned entries are appended. -/
def constructed : List Application × List Signal :=
  (([] ++ [Application.create "papyros-files" true]) ++
      [Application.create "gnome-dictionary" true],
    [Signal.rowsInserted 0 (0 + 2)])

/-- `LauncherModel::rowCount` (lines 148-152). -/
def rowCount (m_list : List Application) : Int := m_list.length

/-- `LauncherModel::get` (lines 184-189); `none` is `Q_NULLPTR`. -/
def get (m_list : List Application) (index : Int) : Option Application :=
  if index < 0 ∨ index ≥ (m_list.length : Int) then none
  else m_list[index.toNat]?

/-- `LauncherModel::indexFromAppId` (lines 191-199): the loop returns the
literal `0` at the first match, and `-1` follows the loop. -/
def indexFromAppId (m_list : List Application) (appId : String) : Int :=
  match forFirstMatch appId (fun _ _ rest => (rest, [])) 0 m_list with
  | some _ => 0
  | none => -1

/-- `LauncherModel::pin` (lines 201-222).  `Q_FOREACH` stops at the first
entry whose id matches; `m_list.indexOf(found)` is the row of that object.
`pinLauncher` (lines 255-266) has an empty body. -/
def pin (m_list : List Application) (appId : String) : List Application × List Signal :=
  match forFirstMatch appId
      (fun i found rest => ((found.setPinned true) :: rest, [Signal.dataChanged i i]))
      0 m_list with
  | some r => r
  | none => (m_list, [])

/-- `LauncherModel::unpin` (lines 224-253). -/
def unpin (m_list : List Application) (appId : String) : List Application × List Signal :=
  match forFirstMatch appId
      (fun i found rest =>
        if found.isRunning then ((found.setPinned false) :: rest, [Signal.dataChanged i i])
        else (rest, [Signal.rowsRemoved i i]))
      0 m_list with
  | some r => r
  | none => (m_list, [])

/-- A call that changes the list: one of the four notifications of the
application manager, or `pin` / `unpin` from the presentation layer. -/
inductive Event where
  | applicationAdded (appId : String) (pid : Int)
  | applicationRemoved (appId : String) (pid : Int)
  | applicationFocused (appId : String)
  | applicationUnfocused (appId : String)
  | pin (appId : String)
  | unpin (appId : String)
deriving DecidableEq

/-- One call applied to `m_list`: the new list and the signals emitted. -/
def step (fresh : State) (m_list : List Application) : Event → List Application × List Signal
  | Event.applicationAdded appId pid => applicationAdded fresh m_list appId pid
  | Event.applicationRemoved appId pid => applicationRemoved m_list appId pid
  | Event.applicationFocused appId => applicationFocused m_list appId
  | Event.applicationUnfocused appId => applicationUnfocused m_list appId
  | Event.pin appId => pin m_list appId
  | Event.unpin appId => unpin m_list appId

/-- The list after a finite sequence of calls, processed in arrival order. -/
def run (fresh : State) (m_list : List Application) (events : List Event) : List Application :=
  events.foldl (fun l e => (step fresh l e).1) m_list

/-- The application ids of the entries, in row order. -/
def appIds (m_list : List Application) : List String := m_list.map Application.appId

/-- The seeded entry "papyros-files". -/
def filesEntry : Application := Application.create "papyros-files" true

/-- The entry "gnome-dictionary", pinned, focused, running with the one process 100. -/
def dictionaryRunning : Application :=
  { appId := "gnome-dictionary", m_pids := {100}, m_pinned := true, m_focused := true,
    m_state := State.Running }

/-- The entry "editor", not pinned, running with the one process 200. -/
def editorRunning : Application :=
  { appId := "editor", m_pids := {200}, m_pinned := false, m_focused := false,
    m_state := State.Running }

/-- The entry "editor", not pinned, focused, running with the processes 200 and 201. -/
def editorTwice : Application :=
  { appId := "editor", m_pids := {200, 201}, m_pinned := false, m_focused := true,
    m_state := State.Running }

/-- The application id that a call carries. -/
def Event.appId : Event → String
  | Event.applicationAdded appId _ => appId
  | Event.applicationRemoved appId _ => appId
  | Event.applicationFocused appId => appId
  | Event.applicationUnfocused appId => appId
  | Event.pin appId => appId
  | Event.unpin appId => appId

/-- True for the four notifications of the application manager:
applicationAdded, applicationRemoved, applicationFocused, applicationUnfocused. -/
def Event.isNotification : Event → Bool
  | Event.pin _ => false
  | Event.unpin _ => false
  | _ => true

/-- The seeded entry "gnome-dictionary". -/
def dictionaryEntry : Application := Application.create "gnome-dictionary" true

/-- An entry is pinned or running. -/
def Alive (a : Application) : Prop := a.isPinned = true ∨ a.isRunning = true

/-- The stored state of an entry agrees with its process set. -/
def Consistent (a : Application) : Prop := a.isRunning = true ↔ a.m_pids.Nonempty

end LauncherModel

namespace LauncherModel

/-! ## The shared loop -/

theorem forFirstMatch_none (appId : String)
    (body : Nat → Application → List Application → List Application × List Signal)
    (l : List Application) (i : Nat) (h : ∀ a ∈ l, a.appId ≠ appId) :
    forFirstMatch appId body i l = none := by
  induction l generalizing i with
  | nil => rfl
  | cons a rest ih =>
    have ha : a.appId ≠ appId := h a (List.mem_cons_self a rest)
    have hr : ∀ b ∈ rest, b.appId ≠ appId := fun b hb => h b (List.mem_cons_of_mem a hb)
    simp [forFirstMatch, ha, ih (i + 1) hr]

theorem forFirstMatch_split (appId : String)
    (body : Nat → Application → List Application → List Application × List Signal)
    (pre : List Application) (a : Application) (post : List Application) (i : Nat)
    (hpre : ∀ b ∈ pre, b.appId ≠ appId) (ha : a.appId = appId) :
    forFirstMatch appId body i (pre ++ a :: post) =
      some (pre ++ (body (i + pre.length) a post).1, (body (i + pre.length) a post).2) := by
  induction pre generalizing i with
  | nil => simp [forFirstMatch, ha]
  | cons b pre ih =>
    have hb : b.appId ≠ appId := hpre b (List.mem_cons_self b pre)
    have hr : ∀ c ∈ pre, c.appId ≠ appId := fun c hc => hpre c (List.mem_cons_of_mem b hc)
    have e : i + 1 + pre.length = i + (pre.length + 1) := by omega
    simp [forFirstMatch, hb, ih (i + 1) hr, e]

/-- Either no entry of the list carries the id, or the list splits at the
first entry that does. -/
theorem first_match_cases (appId : String) (l : List Application) :
    (∀ a ∈ l, a.appId ≠ appId) ∨
    ∃ pre a post, l = pre ++ a :: post ∧ a.appId = appId ∧ ∀ b ∈ pre, b.appId ≠ appId := by
  induction l with
  | nil => left; simp
  | cons a rest ih =>
    by_cases ha : a.appId = appId
    · right; exact ⟨[], a, rest, rfl, ha, by simp⟩
    · rcases ih with h | ⟨pre, b, post, rfl, hb, hpre⟩
      · left
        intro c hc
        rcases List.mem_cons.1 hc with rfl | hc
        · exact ha
        · exact h c hc
      · right
        refine ⟨a :: pre, b, post, rfl, hb, ?_⟩
        intro c hc
        rcases List.mem_cons.1 hc with rfl | hc
        · exact ha
        · exact hpre c hc

/-! ## What each call does on a list split at the first match -/

theorem applicationAdded_found (fresh : State) (pre : List Application) (a : Application)
    (post : List Application) (pid : Int) (hpre : ∀ b ∈ pre, b.appId ≠ a.appId) :
    applicationAdded fresh (pre ++ a :: post) a.appId pid =
      (pre ++ ((a.insertPid pid).setState State.Running) :: post,
        [Signal.dataChanged pre.length pre.length]) := by
  simp [applicationAdded, forFirstMatch_split a.appId _ pre a post 0 hpre rfl]

theorem applicationAdded_fresh (fresh : State) (l : List Application) (appId : String) (pid : Int)
    (h : ∀ a ∈ l, a.appId ≠ appId) :
    applicationAdded fresh l appId pid =
      (l ++ [(Application.createUnpinned fresh appId).insertPid pid],
        [Signal.rowsInserted l.length l.length]) := by
  simp [applicationAdded, forFirstMatch_none appId _ l 0 h]

theorem applicationRemoved_found (pre : List Application) (a : Application)
    (post : List Application) (pid : Int) (hpre : ∀ b ∈ pre, b.appId ≠ a.appId) :
    applicationRemoved (pre ++ a :: post) a.appId pid =
      if (a.removePid pid).m_pids.card > 0 then (pre ++ (a.removePid pid) :: post, [])
      else if (a.removePid pid).isPinned then
        (pre ++ (((a.removePid pid).setState State.NotRunning).setFocused false) :: post,
          [Signal.dataChanged pre.length pre.length])
      else (pre ++ post, [Signal.rowsRemoved pre.length pre.length]) := by
  simp only [applicationRemoved, forFirstMatch_split a.appId _ pre a post 0 hpre rfl]
  split_ifs <;> simp

theorem applicationRemoved_absent (l : List Application) (appId : String) (pid : Int)
    (h : ∀ a ∈ l, a.appId ≠ appId) : applicationRemoved l appId pid = (l, []) := by
  simp [applicationRemoved, forFirstMatch_none appId _ l 0 h]

theorem applicationFocused_found (pre : List Application) (a : Application)
    (post : List Application) (hpre : ∀ b ∈ pre, b.appId ≠ a.appId) :
    applicationFocused (pre ++ a :: post) a.appId =
      (pre ++ (a.setFocused true) :: post, [Signal.dataChanged pre.length pre.length]) := by
  simp [applicationFocused, forFirstMatch_split a.appId _ pre a post 0 hpre rfl]

theorem applicationFocused_absent (l : List Application) (appId : String)
    (h : ∀ a ∈ l, a.appId ≠ appId) : applicationFocused l appId = (l, []) := by
  simp [applicationFocused, forFirstMatch_none appId _ l 0 h]

theorem applicationUnfocused_found (pre : List Application) (a : Application)
    (post : List Application) (hpre : ∀ b ∈ pre, b.appId ≠ a.appId) :
    applicationUnfocused (pre ++ a :: post) a.appId =
      (pre ++ (a.setFocused false) :: post, [Signal.dataChanged pre.length pre.length]) := by
  simp [applicationUnfocused, forFirstMatch_split a.appId _ pre a post 0 hpre rfl]

theorem applicationUnfocused_absent (l : List Application) (appId : String)
    (h : ∀ a ∈ l, a.appId ≠ appId) : applicationUnfocused l appId = (l, []) := by
  simp [applicationUnfocused, forFirstMatch_none appId _ l 0 h]

theorem pin_found (pre : List Application) (a : Application)
    (post : List Application) (hpre : ∀ b ∈ pre, b.appId ≠ a.appId) :
    pin (pre ++ a :: post) a.appId =
      (pre ++ (a.setPinned true) :: post, [Signal.dataChanged pre.length pre.length]) := by
  simp [pin, forFirstMatch_split a.appId _ pre a post 0 hpre rfl]

theorem pin_absent (l : List Application) (appId : String)
    (h : ∀ a ∈ l, a.appId ≠ appId) : pin l appId = (l, []) := by
  simp [pin, forFirstMatch_none appId _ l 0 h]

theorem unpin_found (pre : List Application) (a : Application)
    (post : List Application) (hpre : ∀ b ∈ pre, b.appId ≠ a.appId) :
    unpin (pre ++ a :: post) a.appId =
      if a.isRunning then
        (pre ++ (a.setPinned false) :: post, [Signal.dataChanged pre.length pre.length])
      else (pre ++ post, [Signal.rowsRemoved pre.length pre.length]) := by
  simp only [unpin, forFirstMatch_split a.appId _ pre a post 0 hpre rfl]
  split_ifs <;> simp

theorem unpin_absent (l : List Application) (appId : String)
    (h : ∀ a ∈ l, a.appId ≠ appId) : unpin l appId = (l, []) := by
  simp [unpin, forFirstMatch_none appId _ l 0 h]

/-! ## One call: the ids and the entries of the new list -/

@[simp] theorem appId_setState (a : Application) (s : State) : (a.setState s).appId = a.appId := rfl
@[simp] theorem appId_setPinned (a : Application) (b : Bool) : (a.setPinned b).appId = a.appId := rfl
@[simp] theorem appId_setFocused (a : Application) (b : Bool) : (a.setFocused b).appId = a.appId := rfl
@[simp] theorem appId_insertPid (a : Application) (p : Int) : (a.insertPid p).appId = a.appId := rfl
@[simp] theorem appId_removePid (a : Application) (p : Int) : (a.removePid p).appId = a.appId := rfl

theorem appIds_replace (pre post : List Application) (a b : Application)
    (h : b.appId = a.appId) :
    (appIds (pre ++ b :: post)).Sublist (appIds (pre ++ a :: post)) := by
  simp [appIds, h]

theorem appIds_drop_sublist (pre post : List Application) (a : Application) :
    (appIds (pre ++ post)).Sublist (appIds (pre ++ a :: post)) := by
  simp only [appIds, List.map_append, List.map_cons]
  exact List.Sublist.append (List.Sublist.refl _) (List.sublist_cons_self _ _)

/-- The ids after one call: a sublist of the ids before, or the ids before
followed by one id that was not among them. -/
theorem appIds_step (fresh : State) (l : List Application) (e : Event) :
    (appIds (step fresh l e).1).Sublist (appIds l) ∨
    ∃ id, id ∉ appIds l ∧ appIds (step fresh l e).1 = appIds l ++ [id] := by
  cases e with
  | applicationAdded appId pid =>
    rcases first_match_cases appId l with h | ⟨pre, a, post, rfl, rfl, hpre⟩
    · right
      refine ⟨appId, ?_, ?_⟩
      · simp only [appIds, List.mem_map, not_exists, not_and]
        exact fun a ha => h a ha
      · simp [step, applicationAdded_fresh fresh l appId pid h, appIds,
          Application.createUnpinned, Application.insertPid]
    · left
      simp only [step, applicationAdded_found fresh pre a post pid hpre]
      exact appIds_replace pre post a _ rfl
  | applicationRemoved appId pid =>
    left
    rcases first_match_cases appId l with h | ⟨pre, a, post, rfl, rfl, hpre⟩
    · simp [step, applicationRemoved_absent l appId pid h]
    · simp only [step, applicationRemoved_found pre a post pid hpre]
      split_ifs
      · exact appIds_replace pre post a _ rfl
      · exact appIds_replace pre post a _ rfl
      · exact appIds_drop_sublist pre post a
  | applicationFocused appId =>
    left
    rcases first_match_cases appId l with h | ⟨pre, a, post, rfl, rfl, hpre⟩
    · simp [step, applicationFocused_absent l appId h]
    · simp only [step, applicationFocused_found pre a post hpre]
      exact appIds_replace pre post a _ rfl
  | applicationUnfocused appId =>
    left
    rcases first_match_cases appId l with h | ⟨pre, a, post, rfl, rfl, hpre⟩
    · simp [step, applicationUnfocused_absent l appId h]
    · simp only [step, applicationUnfocused_found pre a post hpre]
      exact appIds_replace pre post a _ rfl
  | pin appId =>
    left
    rcases first_match_cases appId l with h | ⟨pre, a, post, rfl, rfl, hpre⟩
    · simp [step, pin_absent l appId h]
    · simp only [step, pin_found pre a post hpre]
      exact appIds_replace pre post a _ rfl
  | unpin appId =>
    left
    rcases first_match_cases appId l with h | ⟨pre, a, post, rfl, rfl, hpre⟩
    · simp [step, unpin_absent l appId h]
    · simp only [step, unpin_found pre a post hpre]
      split_ifs
      · exact appIds_replace pre post a _ rfl
      · exact appIds_drop_sublist pre post a

theorem nodup_step (fresh : State) (l : List Application) (e : Event)
    (h : (appIds l).Nodup) : (appIds (step fresh l e).1).Nodup := by
  rcases appIds_step fresh l e with hs | ⟨id, hid, heq⟩
  · exact hs.nodup h
  · rw [heq]
    exact List.Nodup.append h (List.nodup_singleton id) (by simpa using hid)

theorem nodup_run (fresh : State) (events : List Event) (l : List Application)
    (h : (appIds l).Nodup) : (appIds (run fresh l events)).Nodup := by
  induction events generalizing l with
  | nil => exact h
  | cons e es ih => exact ih _ (nodup_step fresh l e h)

theorem getElem?_split (pre post : List Application) (b : Application) :
    (pre ++ b :: post)[pre.length]? = some b := by
  induction pre with
  | nil => simp
  | cons c pre ih => simpa using ih

theorem mem_replace {pre post : List Application} {a b x : Application}
    (hx : x ∈ pre ++ b :: post) : x = b ∨ x ∈ pre ++ a :: post := by
  simp only [List.mem_append, List.mem_cons] at hx ⊢
  tauto

theorem mem_drop {pre post : List Application} {a x : Application}
    (hx : x ∈ pre ++ post) : x ∈ pre ++ a :: post := by
  simp only [List.mem_append, List.mem_cons] at hx ⊢
  tauto

/-- A property of single entries that every mutation of the handlers keeps,
and that a newly created entry has, holds of every entry after one call. -/
theorem forall_step (fresh : State) (P : Application → Prop)
    (hnew : ∀ id pid, P ((Application.createUnpinned fresh id).insertPid pid))
    (hadd : ∀ a pid, P a → P ((a.insertPid pid).setState State.Running))
    (hkeep : ∀ a pid, P a → (a.removePid pid).m_pids.card > 0 → P (a.removePid pid))
    (hlast : ∀ a pid, P a → ¬ (a.removePid pid).m_pids.card > 0 →
      (a.removePid pid).isPinned = true →
      P (((a.removePid pid).setState State.NotRunning).setFocused false))
    (hfocus : ∀ a b, P a → P (a.setFocused b))
    (hpin : ∀ a, P a → P (a.setPinned true))
    (hunpin : ∀ a, P a → a.isRunning = true → P (a.setPinned false))
    (l : List Application) (e : Event) (h : ∀ a ∈ l, P a) :
    ∀ a ∈ (step fresh l e).1, P a := by
  cases e with
  | applicationAdded appId pid =>
    rcases first_match_cases appId l with hn | ⟨pre, a, post, rfl, rfl, hpre⟩
    · simp only [step, applicationAdded_fresh fresh l appId pid hn]
      intro x hx
      rcases List.mem_append.1 hx with hx | hx
      · exact h x hx
      · rw [List.mem_singleton.1 hx]; exact hnew appId pid
    · simp only [step, applicationAdded_found fresh pre a post pid hpre]
      intro x hx
      rcases mem_replace (a := a) hx with rfl | hx
      · exact hadd a pid (h a (by simp))
      · exact h x hx
  | applicationRemoved appId pid =>
    rcases first_match_cases appId l with hn | ⟨pre, a, post, rfl, rfl, hpre⟩
    · simpa [step, applicationRemoved_absent l appId pid hn] using h
    · simp only [step, applicationRemoved_found pre a post pid hpre]
      have ha : P a := h a (by simp)
      split_ifs with h1 h2
      · intro x hx
        rcases mem_replace (a := a) hx with rfl | hx
        · exact hkeep a pid ha h1
        · exact h x hx
      · intro x hx
        rcases mem_replace (a := a) hx with rfl | hx
        · exact hlast a pid ha h1 h2
        · exact h x hx
      · exact fun x hx => h x (mem_drop hx)
  | applicationFocused appId =>
    rcases first_match_cases appId l with hn | ⟨pre, a, post, rfl, rfl, hpre⟩
    · simpa [step, applicationFocused_absent l appId hn] using h
    · simp only [step, applicationFocused_found pre a post hpre]
      intro x hx
      rcases mem_replace (a := a) hx with rfl | hx
      · exact hfocus a true (h a (by simp))
      · exact h x hx
  | applicationUnfocused appId =>
    rcases first_match_cases appId l with hn | ⟨pre, a, post, rfl, rfl, hpre⟩
    · simpa [step, applicationUnfocused_absent l appId hn] using h
    · simp only [step, applicationUnfocused_found pre a post hpre]
      intro x hx
      rcases mem_replace (a := a) hx with rfl | hx
      · exact hfocus a false (h a (by simp))
      · exact h x hx
  | pin appId =>
    rcases first_match_cases appId l with hn | ⟨pre, a, post, rfl, rfl, hpre⟩
    · simpa [step, pin_absent l appId hn] using h
    · simp only [step, pin_found pre a post hpre]
      intro x hx
      rcases mem_replace (a := a) hx with rfl | hx
      · exact hpin a (h a (by simp))
      · exact h x hx
  | unpin appId =>
    rcases first_match_cases appId l with hn | ⟨pre, a, post, rfl, rfl, hpre⟩
    · simpa [step, unpin_absent l appId hn] using h
    · simp only [step, unpin_found pre a post hpre]
      split_ifs with h1
      · intro x hx
        rcases mem_replace (a := a) hx with rfl | hx
        · exact hunpin a (h a (by simp)) h1
        · exact h x hx
      · exact fun x hx => h x (mem_drop hx)

theorem forall_run (fresh : State) (P : Application → Prop)
    (hstep : ∀ l e, (∀ a ∈ l, P a) → ∀ a ∈ (step fresh l e).1, P a)
    (events : List Event) (l : List Application) (h : ∀ a ∈ l, P a) :
    ∀ a ∈ run fresh l events, P a := by
  induction events generalizing l with
  | nil => exact h
  | cons e es ih => exact ih _ (hstep l e h)

theorem alive_step (l : List Application) (e : Event) (h : ∀ a ∈ l, Alive a) :
    ∀ a ∈ (step State.Running l e).1, Alive a := by
  refine forall_step State.Running Alive ?_ ?_ ?_ ?_ ?_ ?_ ?_ l e h
  · intro id pid; right; rfl
  · intro a pid _; right; rfl
  · intro a pid ha _; exact ha
  · intro a pid _ _ hp; left; exact hp
  · intro a b ha; exact ha
  · intro a _; left; rfl
  · intro a _ hr; right; exact hr

theorem consistent_step (l : List Application) (e : Event) (h : ∀ a ∈ l, Consistent a) :
    ∀ a ∈ (step State.Running l e).1, Consistent a := by
  refine forall_step State.Running Consistent ?_ ?_ ?_ ?_ ?_ ?_ ?_ l e h
  · intro id pid
    simp [Consistent, Application.createUnpinned, Application.insertPid, Application.isRunning]
  · intro a pid _
    simp [Consistent, Application.setState, Application.insertPid, Application.isRunning]
  · intro a pid ha hc
    have hne : (a.m_pids.erase pid).Nonempty := Finset.card_pos.1 hc
    have hne0 : a.m_pids.Nonempty := hne.mono (Finset.erase_subset pid a.m_pids)
    have hrun : a.isRunning = true := ha.2 hne0
    exact ⟨fun _ => hne, fun _ => hrun⟩
  · intro a pid _ hc _
    have he : a.m_pids.erase pid = ∅ := by
      have : (a.m_pids.erase pid).card = 0 := by
        simpa [Application.removePid] using hc
      exact Finset.card_eq_zero.1 this
    simp [Consistent, Application.setState, Application.setFocused, Application.removePid,
      Application.isRunning, he]
  · intro a b ha; exact ha
  · intro a ha; exact ha
  · intro a ha _; exact ha

theorem count_running_eq (l : List Application) (hu : (appIds l).Nodup)
    (hc : ∀ a ∈ l, Consistent a) :
    (l.filter (fun a => a.isRunning)).length =
      (appIds (l.filter (fun a => decide (a.m_pids.Nonempty)))).toFinset.card := by
  have hf : l.filter (fun a => a.isRunning) = l.filter (fun a => decide (a.m_pids.Nonempty)) := by
    apply List.filter_congr
    intro a ha
    have := hc a ha
    by_cases hr : a.isRunning = true
    · simp [hr, this.1 hr]
    · have hn : ¬ a.m_pids.Nonempty := fun hne => hr (this.2 hne)
      simp [hr, hn]
  have hs : (appIds (l.filter (fun a => decide (a.m_pids.Nonempty)))).Nodup :=
    (List.Sublist.map Application.appId (List.filter_sublist l)).nodup hu
  rw [List.toFinset_card_of_nodup hs, hf]
  simp [appIds]

theorem alive_constructed : ∀ a ∈ constructed.1, Alive a := by
  intro a ha
  simp only [constructed, List.nil_append, List.cons_append, List.mem_cons,
    List.mem_singleton, List.not_mem_nil, or_false] at ha
  rcases ha with rfl | rfl <;> exact Or.inl rfl

theorem consistent_constructed : ∀ a ∈ constructed.1, Consistent a := by
  intro a ha
  simp only [constructed, List.nil_append, List.cons_append, List.mem_cons,
    List.mem_singleton, List.not_mem_nil, or_false] at ha
  rcases ha with rfl | rfl <;>
    simp [Consistent, Application.create, Application.isRunning]

/-! ## The properties of the specification -/

/-- C1. Uniqueness invariant: after any finite sequence of applicationAdded,
applicationRemoved, applicationFocused, applicationUnfocused, pin and unpin
calls applied to the constructed list, no two entries of `m_list` carry the
same application id.  This holds whatever state a new `Application` starts in. -/
theorem unique_appId_reachable (fresh : State) (events : List Event) :
    (appIds (run fresh constructed.1 events)).Nodup :=
  nodup_run fresh events constructed.1 (by decide)

/-- If `Application(appId, parent)` left its object in `Running`, no entry of a
list reached from the constructed one would be both not pinned and not
running: every write of the handlers and of pin / unpin keeps this. -/
theorem alive_run_of_running_ctor (events : List Event) :
    ∀ a ∈ run State.Running constructed.1 events, Alive a :=
  forall_run State.Running Alive alive_step events constructed.1 alive_constructed

/-- If `Application(appId, parent)` left its object in `Running`, the running
state of every entry reached from the constructed list would agree with its
process set, and the number of running entries would be the number of ids
with a process. -/
theorem consistent_run_of_running_ctor (events : List Event) :
    (∀ a ∈ run State.Running constructed.1 events, Consistent a) ∧
    ((run State.Running constructed.1 events).filter (fun a => a.isRunning)).length =
      (appIds ((run State.Running constructed.1 events).filter
        (fun a => decide (a.m_pids.Nonempty)))).toFinset.card := by
  have hc : ∀ a ∈ run State.Running constructed.1 events, Consistent a :=
    forall_run State.Running Consistent consistent_step events constructed.1 consistent_constructed
  exact ⟨hc, count_running_eq _ (nodup_run State.Running events constructed.1 (by decide)) hc⟩

/-- C4. `indexFromAppId` on the constructed list with the id of the second
entry: the entry with that id stands at row 1, the method returns 0, and
`get` of the returned row is the entry "papyros-files", whose id differs. -/
theorem indexFromAppId_second_entry :
    constructed.1[1]? = some (Application.create "gnome-dictionary" true) ∧
    indexFromAppId constructed.1 "gnome-dictionary" = 0 ∧
    get constructed.1 (indexFromAppId constructed.1 "gnome-dictionary") =
      some (Application.create "papyros-files" true) ∧
    (Application.create "papyros-files" true).appId ≠ "gnome-dictionary" := by
  decide

/-- C5. `get(position)`: when `0 <= position < rowCount` the read of `m_list`
is within bounds and `get` returns the entry stored at that position; `get`
returns the null value exactly when `position < 0` or `position >= rowCount`.
`get` is a function of the list and gives back no list: it changes nothing. -/
theorem get_in_range_or_null (m_list : List Application) (position : Int) :
    (0 ≤ position ∧ position < rowCount m_list →
      ∃ h : position.toNat < m_list.length,
        get m_list position = some (m_list.get ⟨position.toNat, h⟩)) ∧
    (get m_list position = none ↔ position < 0 ∨ position ≥ rowCount m_list) := by
  unfold get rowCount
  constructor
  · rintro ⟨h0, h1⟩
    have hlt : position.toNat < m_list.length := by omega
    refine ⟨hlt, ?_⟩
    have hn : ¬ (position < 0 ∨ position ≥ (m_list.length : Int)) := by omega
    rw [if_neg hn]
    exact List.getElem?_eq_getElem hlt
  · by_cases hc : position < 0 ∨ position ≥ (m_list.length : Int)
    · simp [hc]
    · have hlt : position.toNat < m_list.length := by omega
      rw [if_neg hc, List.getElem?_eq_getElem hlt]
      simp [hc]

/-- Witness for C5: row 1 of the constructed list. -/
theorem get_in_range_or_null_witness :
    (0 ≤ (1 : Int) ∧ (1 : Int) < rowCount constructed.1) ∧
    ∃ h : (1 : Int).toNat < constructed.1.length,
      get constructed.1 1 = some (constructed.1.get ⟨(1 : Int).toNat, h⟩) :=
  ⟨by decide, (get_in_range_or_null constructed.1 1).1 (by decide)⟩

/-- C6. applicationAdded(id, pid) when an entry with that id exists: the list
splits at the first such entry, which is replaced in place by an entry with
the same id whose process set is the old one with `pid` added; the entry is
running, its pinned and focused flags are unchanged, every other entry and the
number of entries are unchanged, and `dataChanged` is emitted for its row. -/
theorem applicationAdded_existing (fresh : State) (m_list : List Application)
    (appId : String) (pid : Int) (h : ∃ a ∈ m_list, a.appId = appId) :
    ∃ pre a post b, m_list = pre ++ a :: post ∧ a.appId = appId ∧
      (∀ c ∈ pre, c.appId ≠ appId) ∧
      applicationAdded fresh m_list appId pid =
        (pre ++ b :: post, [Signal.dataChanged pre.length pre.length]) ∧
      (applicationAdded fresh m_list appId pid).1.length = m_list.length ∧
      b.appId = appId ∧ b.m_pids = insert pid a.m_pids ∧ pid ∈ b.m_pids ∧
      b.isRunning = true ∧ b.isPinned = a.isPinned ∧ b.isFocused = a.isFocused := by
  rcases first_match_cases appId m_list with hn | ⟨pre, a, post, rfl, rfl, hpre⟩
  · rcases h with ⟨a, ha, hid⟩
    exact absurd hid (hn a ha)
  · refine ⟨pre, a, post, (a.insertPid pid).setState State.Running, rfl, rfl, hpre,
      applicationAdded_found fresh pre a post pid hpre, ?_, rfl, rfl, ?_, rfl, rfl, rfl⟩
    · simp [applicationAdded_found fresh pre a post pid hpre]
    · simp [Application.setState, Application.insertPid]

/-- Witness for C6: a process of the seeded entry "gnome-dictionary" starts. -/
theorem applicationAdded_existing_witness :
    (∃ a ∈ constructed.1, a.appId = "gnome-dictionary") ∧
    ∃ pre a post b, constructed.1 = pre ++ a :: post ∧ a.appId = "gnome-dictionary" ∧
      (∀ c ∈ pre, c.appId ≠ "gnome-dictionary") ∧
      applicationAdded freshState constructed.1 "gnome-dictionary" 100 =
        (pre ++ b :: post, [Signal.dataChanged pre.length pre.length]) ∧
      (applicationAdded freshState constructed.1 "gnome-dictionary" 100).1.length =
        constructed.1.length ∧
      b.appId = "gnome-dictionary" ∧ b.m_pids = insert 100 a.m_pids ∧ (100 : Int) ∈ b.m_pids ∧
      b.isRunning = true ∧ b.isPinned = a.isPinned ∧ b.isFocused = a.isFocused :=
  ⟨by decide, applicationAdded_existing freshState constructed.1 "gnome-dictionary" 100 (by decide)⟩

/-- C7. applicationAdded(id, pid) when no entry has that id: the new list is
the old list followed by one new entry, so every previous entry keeps its row
and content and the new entry stands at row old `rowCount`; the new entry has
the id `id` and the process set `{pid}`; the one signal emitted is the
insertion of row old `rowCount`. -/
theorem applicationAdded_unseen (fresh : State) (m_list : List Application)
    (appId : String) (pid : Int) (h : ∀ a ∈ m_list, a.appId ≠ appId) :
    ∃ e, (applicationAdded fresh m_list appId pid).1 = m_list ++ [e] ∧
      e.appId = appId ∧ e.m_pids = {pid} ∧
      (applicationAdded fresh m_list appId pid).1.length = m_list.length + 1 ∧
      (applicationAdded fresh m_list appId pid).1[m_list.length]? = some e ∧
      (∀ i, i < m_list.length →
        (applicationAdded fresh m_list appId pid).1[i]? = m_list[i]?) ∧
      (applicationAdded fresh m_list appId pid).2 =
        [Signal.rowsInserted m_list.length m_list.length] := by
  refine ⟨(Application.createUnpinned fresh appId).insertPid pid, ?_, rfl, ?_, ?_, ?_, ?_, ?_⟩
  · rw [applicationAdded_fresh fresh m_list appId pid h]
  · simp [Application.createUnpinned, Application.insertPid]
  · simp [applicationAdded_fresh fresh m_list appId pid h]
  · simp [applicationAdded_fresh fresh m_list appId pid h]
  · intro i hi
    simp [applicationAdded_fresh fresh m_list appId pid h, List.getElem?_append_left hi]
  · rw [applicationAdded_fresh fresh m_list appId pid h]

/-- Witness for C7: a process of "editor" starts on the constructed list. -/
theorem applicationAdded_unseen_witness :
    (∀ a ∈ constructed.1, a.appId ≠ "editor") ∧
    ∃ e, (applicationAdded freshState constructed.1 "editor" 200).1 = constructed.1 ++ [e] ∧
      e.appId = "editor" ∧ e.m_pids = {200} ∧
      (applicationAdded freshState constructed.1 "editor" 200).1.length =
        constructed.1.length + 1 ∧
      (applicationAdded freshState constructed.1 "editor" 200).1[constructed.1.length]? =
        some e ∧
      (∀ i, i < constructed.1.length →
        (applicationAdded freshState constructed.1 "editor" 200).1[i]? = constructed.1[i]?) ∧
      (applicationAdded freshState constructed.1 "editor" 200).2 =
        [Signal.rowsInserted constructed.1.length constructed.1.length] :=
  ⟨by decide, applicationAdded_unseen freshState constructed.1 "editor" 200 (by decide)⟩

/-- C8. applicationRemoved(id, pid) on a pinned, running entry whose process set
is exactly `{pid}` (the first entry with its id): the entry stays at its row,
still pinned, with an empty process set, not running and not focused; the
number of entries and every other entry are unchanged, and `dataChanged` is
emitted for its row. -/
theorem applicationRemoved_last_pinned (pre : List Application) (a : Application)
    (post : List Application) (pid : Int)
    (hpre : ∀ c ∈ pre, c.appId ≠ a.appId)
    (hpinned : a.isPinned = true) (hrunning : a.isRunning = true)
    (hpids : a.m_pids = {pid}) :
    ∃ b, applicationRemoved (pre ++ a :: post) a.appId pid =
        (pre ++ b :: post, [Signal.dataChanged pre.length pre.length]) ∧
      (applicationRemoved (pre ++ a :: post) a.appId pid).1[pre.length]? = some b ∧
      (applicationRemoved (pre ++ a :: post) a.appId pid).1.length =
        (pre ++ a :: post).length ∧
      b.appId = a.appId ∧ b.isPinned = true ∧ b.m_pids = ∅ ∧
      b.isRunning = false ∧ b.isFocused = false := by
  have _ := hrunning
  have he : a.m_pids.erase pid = ∅ := by rw [hpids]; simp
  have hc : ¬ (a.removePid pid).m_pids.card > 0 := by
    simp [Application.removePid, he]
  have hp : (a.removePid pid).isPinned = true := hpinned
  have hres := applicationRemoved_found pre a post pid hpre
  rw [if_neg hc, if_pos hp] at hres
  refine ⟨((a.removePid pid).setState State.NotRunning).setFocused false, hres, ?_, ?_,
    rfl, hpinned, he, rfl, rfl⟩
  · rw [hres]; exact getElem?_split pre post _
  · simp [hres]

/-- Witness for C8: the one process of the pinned entry "gnome-dictionary" ends. -/
theorem applicationRemoved_last_pinned_witness :
    ((∀ c ∈ [filesEntry], c.appId ≠ dictionaryRunning.appId) ∧
      dictionaryRunning.isPinned = true ∧ dictionaryRunning.isRunning = true ∧
      dictionaryRunning.m_pids = {100}) ∧
    ∃ b, applicationRemoved ([filesEntry] ++ dictionaryRunning :: []) dictionaryRunning.appId 100 =
        ([filesEntry] ++ b :: [], [Signal.dataChanged [filesEntry].length [filesEntry].length]) ∧
      (applicationRemoved ([filesEntry] ++ dictionaryRunning :: [])
        dictionaryRunning.appId 100).1[[filesEntry].length]? = some b ∧
      (applicationRemoved ([filesEntry] ++ dictionaryRunning :: [])
        dictionaryRunning.appId 100).1.length = ([filesEntry] ++ dictionaryRunning :: []).length ∧
      b.appId = dictionaryRunning.appId ∧ b.isPinned = true ∧ b.m_pids = ∅ ∧
      b.isRunning = false ∧ b.isFocused = false :=
  ⟨by decide,
    applicationRemoved_last_pinned [filesEntry] dictionaryRunning [] 100
      (by decide) (by decide) (by decide) (by decide)⟩

/-- C9. applicationRemoved(id, pid) on an unpinned, running entry whose process
set is exactly `{pid}`, the only entry with its id: afterwards no entry has
that id, the number of entries is one less, the other entries remain unchanged
in the same order, and the removal of its row is signalled. -/
theorem applicationRemoved_last_unpinned (pre : List Application) (a : Application)
    (post : List Application) (pid : Int)
    (hpre : ∀ c ∈ pre, c.appId ≠ a.appId) (hpost : ∀ c ∈ post, c.appId ≠ a.appId)
    (hunpinned : a.isPinned = false) (hrunning : a.isRunning = true)
    (hpids : a.m_pids = {pid}) :
    applicationRemoved (pre ++ a :: post) a.appId pid =
        (pre ++ post, [Signal.rowsRemoved pre.length pre.length]) ∧
      (∀ c ∈ (applicationRemoved (pre ++ a :: post) a.appId pid).1, c.appId ≠ a.appId) ∧
      (applicationRemoved (pre ++ a :: post) a.appId pid).1.length + 1 =
        (pre ++ a :: post).length := by
  have _ := hrunning
  have he : a.m_pids.erase pid = ∅ := by rw [hpids]; simp
  have hc : ¬ (a.removePid pid).m_pids.card > 0 := by
    simp [Application.removePid, he]
  have hp : ¬ (a.removePid pid).isPinned = true := by
    have : (a.removePid pid).isPinned = false := hunpinned
    simp [this]
  have hres := applicationRemoved_found pre a post pid hpre
  rw [if_neg hc, if_neg hp] at hres
  refine ⟨hres, ?_, ?_⟩
  · rw [hres]
    intro c hc
    rcases List.mem_append.1 hc with hc | hc
    · exact hpre c hc
    · exact hpost c hc
  · simp [hres]; omega

/-- Witness for C9: the one process of the unpinned entry "editor" ends. -/
theorem applicationRemoved_last_unpinned_witness :
    ((∀ c ∈ [filesEntry], c.appId ≠ editorRunning.appId) ∧
      (∀ c ∈ [dictionaryRunning], c.appId ≠ editorRunning.appId) ∧
      editorRunning.isPinned = false ∧ editorRunning.isRunning = true ∧
      editorRunning.m_pids = {200}) ∧
    applicationRemoved ([filesEntry] ++ editorRunning :: [dictionaryRunning])
        editorRunning.appId 200 =
        ([filesEntry] ++ [dictionaryRunning],
          [Signal.rowsRemoved [filesEntry].length [filesEntry].length]) ∧
      (∀ c ∈ (applicationRemoved ([filesEntry] ++ editorRunning :: [dictionaryRunning])
        editorRunning.appId 200).1, c.appId ≠ editorRunning.appId) ∧
      (applicationRemoved ([filesEntry] ++ editorRunning :: [dictionaryRunning])
        editorRunning.appId 200).1.length + 1 =
        ([filesEntry] ++ editorRunning :: [dictionaryRunning]).length :=
  ⟨by decide,
    applicationRemoved_last_unpinned [filesEntry] editorRunning [dictionaryRunning] 200
      (by decide) (by decide) (by decide) (by decide) (by decide)⟩

/-- C10. applicationRemoved(id, pid) on an entry (the first with its id) whose
process set holds a process other than `pid`: the entry stays at its row with
`pid` removed from its process set and every other pid kept; its running,
pinned and focused flags, the other entries and the number of entries are
unchanged, and no signal is emitted. -/
theorem applicationRemoved_others_remain (pre : List Application) (a : Application)
    (post : List Application) (pid : Int)
    (hpre : ∀ c ∈ pre, c.appId ≠ a.appId) (hother : ∃ q ∈ a.m_pids, q ≠ pid) :
    ∃ b, applicationRemoved (pre ++ a :: post) a.appId pid = (pre ++ b :: post, []) ∧
      (applicationRemoved (pre ++ a :: post) a.appId pid).1[pre.length]? = some b ∧
      (applicationRemoved (pre ++ a :: post) a.appId pid).1.length =
        (pre ++ a :: post).length ∧
      b.appId = a.appId ∧ pid ∉ b.m_pids ∧ (∀ q ∈ a.m_pids, q ≠ pid → q ∈ b.m_pids) ∧
      b.m_pids = a.m_pids.erase pid ∧
      b.isRunning = a.isRunning ∧ b.isPinned = a.isPinned ∧ b.isFocused = a.isFocused := by
  rcases hother with ⟨q, hq, hne⟩
  have hc : (a.removePid pid).m_pids.card > 0 :=
    Finset.card_pos.2 ⟨q, Finset.mem_erase.2 ⟨hne, hq⟩⟩
  have hres := applicationRemoved_found pre a post pid hpre
  rw [if_pos hc] at hres
  refine ⟨a.removePid pid, hres, ?_, ?_, rfl, ?_, ?_, rfl, rfl, rfl, rfl⟩
  · rw [hres]; exact getElem?_split pre post _
  · simp [hres]
  · simp [Application.removePid]
  · intro r hr hrne
    exact Finset.mem_erase.2 ⟨hrne, hr⟩

/-- Witness for C10: process 200 of "editor" ends while process 201 lives on. -/
theorem applicationRemoved_others_remain_witness :
    ((∀ c ∈ [filesEntry], c.appId ≠ editorTwice.appId) ∧
      ∃ q ∈ editorTwice.m_pids, q ≠ 200) ∧
    ∃ b, applicationRemoved ([filesEntry] ++ editorTwice :: []) editorTwice.appId 200 =
        ([filesEntry] ++ b :: [], []) ∧
      (applicationRemoved ([filesEntry] ++ editorTwice :: [])
        editorTwice.appId 200).1[[filesEntry].length]? = some b ∧
      (applicationRemoved ([filesEntry] ++ editorTwice :: []) editorTwice.appId 200).1.length =
        ([filesEntry] ++ editorTwice :: []).length ∧
      b.appId = editorTwice.appId ∧ (200 : Int) ∉ b.m_pids ∧
      (∀ q ∈ editorTwice.m_pids, q ≠ 200 → q ∈ b.m_pids) ∧
      b.m_pids = editorTwice.m_pids.erase 200 ∧
      b.isRunning = editorTwice.isRunning ∧ b.isPinned = editorTwice.isPinned ∧
      b.isFocused = editorTwice.isFocused :=
  ⟨by decide,
    applicationRemoved_others_remain [filesEntry] editorTwice [] 200 (by decide) (by decide)⟩

/-- C11. unpin(id) on an existing entry (the first with its id).  If the entry
is running it stays at its row with pinned false, its process set and focused
flag unchanged, and the number of entries is unchanged.  If it is not running
it is removed: the number of entries is one less and the other entries keep
their contents and order. -/
theorem unpin_existing (pre : List Application) (a : Application) (post : List Application)
    (hpre : ∀ c ∈ pre, c.appId ≠ a.appId) :
    (a.isRunning = true →
      ∃ b, unpin (pre ++ a :: post) a.appId =
          (pre ++ b :: post, [Signal.dataChanged pre.length pre.length]) ∧
        (unpin (pre ++ a :: post) a.appId).1[pre.length]? = some b ∧
        (unpin (pre ++ a :: post) a.appId).1.length = (pre ++ a :: post).length ∧
        b.appId = a.appId ∧ b.isPinned = false ∧ b.m_pids = a.m_pids ∧
        b.isFocused = a.isFocused ∧ b.isRunning = true) ∧
    (a.isRunning = false →
      unpin (pre ++ a :: post) a.appId =
          (pre ++ post, [Signal.rowsRemoved pre.length pre.length]) ∧
        (unpin (pre ++ a :: post) a.appId).1.length + 1 = (pre ++ a :: post).length) := by
  have hres := unpin_found pre a post hpre
  constructor
  · intro hr
    rw [if_pos hr] at hres
    refine ⟨a.setPinned false, hres, ?_, ?_, rfl, rfl, rfl, rfl, hr⟩
    · rw [hres]; exact getElem?_split pre post _
    · simp [hres]
  · intro hr
    have hn : ¬ a.isRunning = true := by simp [hr]
    rw [if_neg hn] at hres
    refine ⟨hres, ?_⟩
    simp [hres]; omega

/-- Witness for C11: unpin of the running entry "gnome-dictionary", and unpin of
the seeded entry "gnome-dictionary" that is not running. -/
theorem unpin_existing_witness :
    (∀ c ∈ [filesEntry], c.appId ≠ dictionaryRunning.appId) ∧
    (∃ b, unpin ([filesEntry] ++ dictionaryRunning :: []) dictionaryRunning.appId =
        ([filesEntry] ++ b :: [], [Signal.dataChanged [filesEntry].length [filesEntry].length]) ∧
      b.isPinned = false ∧ b.m_pids = dictionaryRunning.m_pids ∧ b.isRunning = true) ∧
    (∀ c ∈ [filesEntry], c.appId ≠ dictionaryEntry.appId) ∧
    unpin ([filesEntry] ++ dictionaryEntry :: []) dictionaryEntry.appId =
      ([filesEntry] ++ [], [Signal.rowsRemoved [filesEntry].length [filesEntry].length]) := by
  refine ⟨by decide, ?_, by decide, ?_⟩
  · obtain ⟨b, h1, _, _, _, h2, h3, _, h4⟩ :=
      (unpin_existing [filesEntry] dictionaryRunning [] (by decide)).1 (by decide)
    exact ⟨b, h1, h2, h3, h4⟩
  · exact ((unpin_existing [filesEntry] dictionaryEntry [] (by decide)).2 (by decide)).1

/-- C12. pin(id) on an existing entry: the first entry with the id is replaced
in place by an entry with pinned true and the same id, process set, running
and focused state; the number and order of entries and every other entry are
unchanged; one `dataChanged` is emitted, for the row of that entry; and pin
twice yields the same list as pin once. -/
theorem pin_existing (m_list : List Application) (appId : String)
    (h : ∃ a ∈ m_list, a.appId = appId) :
    ∃ pre a post b, m_list = pre ++ a :: post ∧ a.appId = appId ∧
      (∀ c ∈ pre, c.appId ≠ appId) ∧
      pin m_list appId = (pre ++ b :: post, [Signal.dataChanged pre.length pre.length]) ∧
      (pin m_list appId).1[pre.length]? = some b ∧
      (pin m_list appId).1.length = m_list.length ∧
      appIds (pin m_list appId).1 = appIds m_list ∧
      b.appId = appId ∧ b.isPinned = true ∧ b.m_pids = a.m_pids ∧
      b.isRunning = a.isRunning ∧ b.isFocused = a.isFocused ∧
      (pin (pin m_list appId).1 appId).1 = (pin m_list appId).1 := by
  rcases first_match_cases appId m_list with hn | ⟨pre, a, post, rfl, rfl, hpre⟩
  · rcases h with ⟨a, ha, hid⟩
    exact absurd hid (hn a ha)
  · have hres := pin_found pre a post hpre
    have hagain := pin_found pre (a.setPinned true) post hpre
    refine ⟨pre, a, post, a.setPinned true, rfl, rfl, hpre, hres, ?_, ?_, ?_,
      rfl, rfl, rfl, rfl, rfl, ?_⟩
    · rw [hres]; exact getElem?_split pre post _
    · simp [hres]
    · simp [hres, appIds]
    · rw [hres]
      exact congrArg Prod.fst hagain

/-- Witness for C12: pin of the unpinned running entry "editor". -/
theorem pin_existing_witness :
    (∃ a ∈ [filesEntry, editorRunning], a.appId = "editor") ∧
    ∃ pre a post b, [filesEntry, editorRunning] = pre ++ a :: post ∧ a.appId = "editor" ∧
      (∀ c ∈ pre, c.appId ≠ "editor") ∧
      pin [filesEntry, editorRunning] "editor" =
        (pre ++ b :: post, [Signal.dataChanged pre.length pre.length]) ∧
      (pin [filesEntry, editorRunning] "editor").1[pre.length]? = some b ∧
      (pin [filesEntry, editorRunning] "editor").1.length = [filesEntry, editorRunning].length ∧
      appIds (pin [filesEntry, editorRunning] "editor").1 = appIds [filesEntry, editorRunning] ∧
      b.appId = "editor" ∧ b.isPinned = true ∧ b.m_pids = a.m_pids ∧
      b.isRunning = a.isRunning ∧ b.isFocused = a.isFocused ∧
      (pin (pin [filesEntry, editorRunning] "editor").1 "editor").1 =
        (pin [filesEntry, editorRunning] "editor").1 :=
  ⟨by decide, pin_existing [filesEntry, editorRunning] "editor" (by decide)⟩

/-- C13. pin(id) followed at once by unpin(id) on an existing entry, the only
one with its id.  If the entry has an empty process set and is not running, no
entry with the id exists afterwards and the other entries remain.  If the
entry is running, it is still present at its row, not pinned and running. -/
theorem pin_then_unpin (pre : List Application) (a : Application) (post : List Application)
    (hpre : ∀ c ∈ pre, c.appId ≠ a.appId) (hpost : ∀ c ∈ post, c.appId ≠ a.appId) :
    (a.m_pids = ∅ → a.isRunning = false →
      (unpin (pin (pre ++ a :: post) a.appId).1 a.appId).1 = pre ++ post ∧
      ∀ c ∈ (unpin (pin (pre ++ a :: post) a.appId).1 a.appId).1, c.appId ≠ a.appId) ∧
    (a.isRunning = true →
      ∃ b, (unpin (pin (pre ++ a :: post) a.appId).1 a.appId).1 = pre ++ b :: post ∧
        b.appId = a.appId ∧ b.isPinned = false ∧ b.isRunning = true ∧
        b.m_pids = a.m_pids ∧ b.isFocused = a.isFocused) := by
  have hpin := pin_found pre a post hpre
  have hun := unpin_found pre (a.setPinned true) post hpre
  have hrun : (a.setPinned true).isRunning = a.isRunning := rfl
  rw [hrun] at hun
  have hid : (a.setPinned true).appId = a.appId := rfl
  rw [hid] at hun
  constructor
  · intro _ hr
    have hn : ¬ a.isRunning = true := by simp [hr]
    rw [if_neg hn] at hun
    have hl : (unpin (pin (pre ++ a :: post) a.appId).1 a.appId).1 = pre ++ post := by
      rw [hpin]; exact congrArg Prod.fst hun
    refine ⟨hl, ?_⟩
    rw [hl]
    intro c hc
    rcases List.mem_append.1 hc with hc | hc
    · exact hpre c hc
    · exact hpost c hc
  · intro hr
    rw [if_pos hr] at hun
    refine ⟨(a.setPinned true).setPinned false, ?_, rfl, rfl, hr, rfl, rfl⟩
    rw [hpin]; exact congrArg Prod.fst hun

/-- Witness for C13: pin then unpin of the seeded entry "gnome-dictionary" that
never ran, and of the running entry "editor". -/
theorem pin_then_unpin_witness :
    ((∀ c ∈ [filesEntry], c.appId ≠ dictionaryEntry.appId) ∧
      (∀ c ∈ ([] : List Application), c.appId ≠ dictionaryEntry.appId) ∧
      dictionaryEntry.m_pids = ∅ ∧ dictionaryEntry.isRunning = false) ∧
    ((unpin (pin ([filesEntry] ++ dictionaryEntry :: []) dictionaryEntry.appId).1
        dictionaryEntry.appId).1 = [filesEntry] ++ [] ∧
      ∀ c ∈ (unpin (pin ([filesEntry] ++ dictionaryEntry :: []) dictionaryEntry.appId).1
        dictionaryEntry.appId).1, c.appId ≠ dictionaryEntry.appId) ∧
    ((∀ c ∈ [filesEntry], c.appId ≠ editorRunning.appId) ∧
      (∀ c ∈ [dictionaryEntry], c.appId ≠ editorRunning.appId) ∧
      editorRunning.isRunning = true) ∧
    ∃ b, (unpin (pin ([filesEntry] ++ editorRunning :: [dictionaryEntry]) editorRunning.appId).1
        editorRunning.appId).1 = [filesEntry] ++ b :: [dictionaryEntry] ∧
      b.appId = editorRunning.appId ∧ b.isPinned = false ∧ b.isRunning = true ∧
      b.m_pids = editorRunning.m_pids ∧ b.isFocused = editorRunning.isFocused :=
  ⟨by decide,
    (pin_then_unpin [filesEntry] dictionaryEntry [] (by decide) (by decide)).1
      (by decide) (by decide),
    by decide,
    (pin_then_unpin [filesEntry] editorRunning [dictionaryEntry] (by decide) (by decide)).2
      (by decide)⟩

/-- C14. applicationFocused(id) and applicationUnfocused(id) on an existing
entry: the first entry with the id is replaced in place by an entry with
focused true (respectively false) and the same id, process set, running and
pinned state; the number and order of entries are unchanged, and every other
entry, its focused flag included, is unchanged. -/
theorem focus_existing (m_list : List Application) (appId : String)
    (h : ∃ a ∈ m_list, a.appId = appId) :
    ∃ pre a post f u, m_list = pre ++ a :: post ∧ a.appId = appId ∧
      (∀ c ∈ pre, c.appId ≠ appId) ∧
      applicationFocused m_list appId =
        (pre ++ f :: post, [Signal.dataChanged pre.length pre.length]) ∧
      applicationUnfocused m_list appId =
        (pre ++ u :: post, [Signal.dataChanged pre.length pre.length]) ∧
      (applicationFocused m_list appId).1.length = m_list.length ∧
      (applicationUnfocused m_list appId).1.length = m_list.length ∧
      appIds (applicationFocused m_list appId).1 = appIds m_list ∧
      appIds (applicationUnfocused m_list appId).1 = appIds m_list ∧
      f.appId = appId ∧ f.isFocused = true ∧ f.m_pids = a.m_pids ∧
      f.isRunning = a.isRunning ∧ f.isPinned = a.isPinned ∧
      u.appId = appId ∧ u.isFocused = false ∧ u.m_pids = a.m_pids ∧
      u.isRunning = a.isRunning ∧ u.isPinned = a.isPinned := by
  rcases first_match_cases appId m_list with hn | ⟨pre, a, post, rfl, rfl, hpre⟩
  · rcases h with ⟨a, ha, hid⟩
    exact absurd hid (hn a ha)
  · have hf := applicationFocused_found pre a post hpre
    have hu := applicationUnfocused_found pre a post hpre
    refine ⟨pre, a, post, a.setFocused true, a.setFocused false, rfl, rfl, hpre, hf, hu,
      ?_, ?_, ?_, ?_, rfl, rfl, rfl, rfl, rfl, rfl, rfl, rfl, rfl, rfl⟩
    · simp [hf]
    · simp [hu]
    · simp [hf, appIds]
    · simp [hu, appIds]

/-- Witness for C14: focus and unfocus of the seeded entry "gnome-dictionary". -/
theorem focus_existing_witness :
    (∃ a ∈ constructed.1, a.appId = "gnome-dictionary") ∧
    ∃ pre a post f u, constructed.1 = pre ++ a :: post ∧ a.appId = "gnome-dictionary" ∧
      (∀ c ∈ pre, c.appId ≠ "gnome-dictionary") ∧
      applicationFocused constructed.1 "gnome-dictionary" =
        (pre ++ f :: post, [Signal.dataChanged pre.length pre.length]) ∧
      applicationUnfocused constructed.1 "gnome-dictionary" =
        (pre ++ u :: post, [Signal.dataChanged pre.length pre.length]) ∧
      (applicationFocused constructed.1 "gnome-dictionary").1.length = constructed.1.length ∧
      (applicationUnfocused constructed.1 "gnome-dictionary").1.length = constructed.1.length ∧
      appIds (applicationFocused constructed.1 "gnome-dictionary").1 = appIds constructed.1 ∧
      appIds (applicationUnfocused constructed.1 "gnome-dictionary").1 = appIds constructed.1 ∧
      f.appId = "gnome-dictionary" ∧ f.isFocused = true ∧ f.m_pids = a.m_pids ∧
      f.isRunning = a.isRunning ∧ f.isPinned = a.isPinned ∧
      u.appId = "gnome-dictionary" ∧ u.isFocused = false ∧ u.m_pids = a.m_pids ∧
      u.isRunning = a.isRunning ∧ u.isPinned = a.isPinned :=
  ⟨by decide, focus_existing constructed.1 "gnome-dictionary" (by decide)⟩

/-- C15. Unknown identifiers are silent no-ops: when no entry of the list has
the id, each of applicationRemoved(id, pid), applicationFocused(id),
applicationUnfocused(id), pin(id) and unpin(id) returns the list unchanged and
emits no signal. -/
theorem unknown_id_noop (m_list : List Application) (appId : String) (pid : Int)
    (h : ∀ a ∈ m_list, a.appId ≠ appId) :
    applicationRemoved m_list appId pid = (m_list, []) ∧
    applicationFocused m_list appId = (m_list, []) ∧
    applicationUnfocused m_list appId = (m_list, []) ∧
    pin m_list appId = (m_list, []) ∧
    unpin m_list appId = (m_list, []) :=
  ⟨applicationRemoved_absent m_list appId pid h, applicationFocused_absent m_list appId h,
    applicationUnfocused_absent m_list appId h, pin_absent m_list appId h,
    unpin_absent m_list appId h⟩

/-- Witness for C15: the id "editor" on the constructed list. -/
theorem unknown_id_noop_witness :
    (∀ a ∈ constructed.1, a.appId ≠ "editor") ∧
    applicationRemoved constructed.1 "editor" 200 = (constructed.1, []) ∧
    applicationFocused constructed.1 "editor" = (constructed.1, []) ∧
    applicationUnfocused constructed.1 "editor" = (constructed.1, []) ∧
    pin constructed.1 "editor" = (constructed.1, []) ∧
    unpin constructed.1 "editor" = (constructed.1, []) :=
  ⟨by decide, unknown_id_noop constructed.1 "editor" 200 (by decide)⟩

/-- C16. Add-then-remove round trip from the seeded state.  The constructed
list is the two entries "papyros-files" and "gnome-dictionary" in that order,
both pinned and not running.  For a seeded id and any pid, applicationAdded
makes its entry running with two entries in the list, and applicationRemoved
of the same pid gives back the seeded list (the entry present, pinned, not
running).  For an id that is not seeded and any pid, applicationAdded gives
three entries, the third with that id, and applicationRemoved of the same pid
gives back the seeded list of two entries. -/
theorem add_remove_round_trip (fresh : State) (appId : String) (pid : Int)
    (h : appId ≠ "papyros-files" ∧ appId ≠ "gnome-dictionary") :
    (appIds constructed.1 = ["papyros-files", "gnome-dictionary"] ∧
      ∀ a ∈ constructed.1, a.isPinned = true ∧ a.isRunning = false) ∧
    (∀ seeded ∈ appIds constructed.1,
      (applicationAdded fresh constructed.1 seeded pid).1.length = 2 ∧
      (∃ a ∈ (applicationAdded fresh constructed.1 seeded pid).1,
        a.appId = seeded ∧ a.isRunning = true ∧ a.isPinned = true) ∧
      (applicationRemoved (applicationAdded fresh constructed.1 seeded pid).1 seeded pid).1 =
        constructed.1) ∧
    ((applicationAdded fresh constructed.1 appId pid).1.length = 3 ∧
      (∃ a, (applicationAdded fresh constructed.1 appId pid).1[2]? = some a ∧
        a.appId = appId ∧ a.m_pids = {pid}) ∧
      (applicationRemoved (applicationAdded fresh constructed.1 appId pid).1 appId pid).1 =
        constructed.1 ∧
      (applicationRemoved (applicationAdded fresh constructed.1 appId pid).1
        appId pid).1.length = 2) := by
  have hseed : constructed.1 = [] ++ filesEntry :: [dictionaryEntry] := rfl
  have hseed2 : constructed.1 = [filesEntry] ++ dictionaryEntry :: [] := rfl
  have hempty : ∀ q : Int, (insert q (∅ : Finset Int)).erase q = ∅ := by
    intro q; simp
  refine ⟨⟨by decide, by decide⟩, ?_, ?_⟩
  · intro seeded hs
    have hs2 : seeded = filesEntry.appId ∨ seeded = dictionaryEntry.appId := by
      simpa [appIds, constructed, filesEntry, dictionaryEntry, Application.create] using hs
    rcases hs2 with rfl | rfl
    · have hadd := applicationAdded_found fresh [] filesEntry [dictionaryEntry] pid (by simp)
      have hrem := applicationRemoved_found []
        ((filesEntry.insertPid pid).setState State.Running) [dictionaryEntry] pid (by simp)
      rw [← hseed] at hadd
      rw [hadd]
      refine ⟨rfl, ⟨_, List.mem_cons_self _ _, rfl, rfl, rfl⟩, ?_⟩
      have hid : ((filesEntry.insertPid pid).setState State.Running).appId = filesEntry.appId :=
        rfl
      rw [hid] at hrem
      rw [hrem]
      simp [Application.removePid, Application.setState, Application.insertPid,
        Application.setFocused, Application.isPinned, filesEntry, dictionaryEntry,
        Application.create, constructed, hempty]
    · have hfd : ∀ b ∈ [filesEntry], b.appId ≠ dictionaryEntry.appId := by decide
      have hadd := applicationAdded_found fresh [filesEntry] dictionaryEntry [] pid hfd
      have hrem := applicationRemoved_found [filesEntry]
        ((dictionaryEntry.insertPid pid).setState State.Running) [] pid hfd
      rw [← hseed2] at hadd
      rw [hadd]
      refine ⟨rfl, ⟨(dictionaryEntry.insertPid pid).setState State.Running, by simp,
        rfl, rfl, rfl⟩, ?_⟩
      have hid : ((dictionaryEntry.insertPid pid).setState State.Running).appId =
          dictionaryEntry.appId := rfl
      rw [hid] at hrem
      rw [hrem]
      simp [Application.removePid, Application.setState, Application.insertPid,
        Application.setFocused, Application.isPinned, filesEntry, dictionaryEntry,
        Application.create, constructed, hempty]
  · have habsent : ∀ a ∈ constructed.1, a.appId ≠ appId := by
      intro a ha
      simp only [constructed, List.nil_append, List.cons_append, List.mem_cons,
        List.mem_singleton, List.not_mem_nil, or_false] at ha
      rcases ha with rfl | rfl
      · exact fun e => h.1 e.symm
      · exact fun e => h.2 e.symm
    have hadd := applicationAdded_fresh fresh constructed.1 appId pid habsent
    have hrem := applicationRemoved_found constructed.1
      ((Application.createUnpinned fresh appId).insertPid pid) [] pid habsent
    have hid : ((Application.createUnpinned fresh appId).insertPid pid).appId = appId := rfl
    rw [hid] at hrem
    have hl : (applicationRemoved (applicationAdded fresh constructed.1 appId pid).1
        appId pid).1 = constructed.1 := by
      rw [hadd, hrem]
      simp [Application.removePid, Application.insertPid, Application.createUnpinned,
        Application.isPinned, hempty]
    refine ⟨?_, ?_, hl, ?_⟩
    · rw [hadd]; rfl
    · refine ⟨(Application.createUnpinned fresh appId).insertPid pid, ?_, rfl, ?_⟩
      · rw [hadd]; rfl
      · simp [Application.createUnpinned, Application.insertPid]
    · rw [hl]; rfl

/-- Witness for C16: the pairs ("papyros-files", 100) and ("editor", 200). -/
theorem add_remove_round_trip_witness :
    ("editor" ≠ "papyros-files" ∧ "editor" ≠ "gnome-dictionary") ∧
    (applicationAdded freshState constructed.1 "papyros-files" 100).1.length = 2 ∧
    (∃ a ∈ (applicationAdded freshState constructed.1 "papyros-files" 100).1,
      a.appId = "papyros-files" ∧ a.isRunning = true ∧ a.isPinned = true) ∧
    (applicationRemoved (applicationAdded freshState constructed.1 "papyros-files" 100).1
      "papyros-files" 100).1 = constructed.1 ∧
    (applicationAdded freshState constructed.1 "editor" 200).1.length = 3 ∧
    (applicationRemoved (applicationAdded freshState constructed.1 "editor" 200).1
      "editor" 200).1 = constructed.1 ∧
    (applicationRemoved (applicationAdded freshState constructed.1 "editor" 200).1
      "editor" 200).1.length = 2 := by
  have hw := add_remove_round_trip freshState "editor" 100 (by decide)
  have hv := add_remove_round_trip freshState "editor" 200 (by decide)
  have hseeded := hw.2.1 "papyros-files" (by decide)
  exact ⟨by decide, hseeded.1, hseeded.2.1, hseeded.2.2, hv.2.2.1, hv.2.2.2.2.1, hv.2.2.2.2.2⟩

/-- C17. `indexFromAppId` as coded: the result is 0 whenever some entry has the
id, whatever its row, and -1 otherwise; it is never a positive number. -/
theorem indexFromAppId_zero_or_minus_one (m_list : List Application) (appId : String) :
    ((∃ a ∈ m_list, a.appId = appId) → indexFromAppId m_list appId = 0) ∧
    ((∀ a ∈ m_list, a.appId ≠ appId) → indexFromAppId m_list appId = -1) ∧
    ¬ (0 < indexFromAppId m_list appId) := by
  rcases first_match_cases appId m_list with hn | ⟨pre, a, post, rfl, rfl, hpre⟩
  · have hv : indexFromAppId m_list appId = -1 := by
      simp [indexFromAppId, forFirstMatch_none appId _ m_list 0 hn]
    refine ⟨?_, fun _ => hv, ?_⟩
    · rintro ⟨a, ha, hid⟩
      exact absurd hid (hn a ha)
    · rw [hv]; decide
  · have hv : indexFromAppId (pre ++ a :: post) a.appId = 0 := by
      simp [indexFromAppId, forFirstMatch_split a.appId _ pre a post 0 hpre rfl]
    refine ⟨fun _ => hv, ?_, ?_⟩
    · intro hall
      exact absurd rfl (hall a (by simp))
    · rw [hv]; decide

/-- Witness for C17: on the constructed list the id of row 1 gives 0 and an
unknown id gives -1. -/
theorem indexFromAppId_zero_or_minus_one_witness :
    ((∃ a ∈ constructed.1, a.appId = "gnome-dictionary") ∧
      indexFromAppId constructed.1 "gnome-dictionary" = 0) ∧
    ((∀ a ∈ constructed.1, a.appId ≠ "editor") ∧
      indexFromAppId constructed.1 "editor" = -1) :=
  ⟨⟨by decide, (indexFromAppId_zero_or_minus_one constructed.1 "gnome-dictionary").1
      (by decide)⟩,
    ⟨by decide, (indexFromAppId_zero_or_minus_one constructed.1 "editor").2.1 (by decide)⟩⟩

/-! ## Signals -/

/-- In a list with distinct ids, two rows whose entries share an id are the same row. -/
theorem unique_row (l : List Application) (hu : (appIds l).Nodup) (i k : Nat)
    (a b : Application) (hi : l[i]? = some a) (hk : l[k]? = some b)
    (h : a.appId = b.appId) : i = k := by
  have hlt : i < (appIds l).length := by
    have := (List.getElem?_eq_some.1 hi).1
    simpa [appIds] using this
  have e1 : (appIds l)[i]? = some a.appId := by simp [appIds, List.getElem?_map, hi]
  have e2 : (appIds l)[k]? = some b.appId := by simp [appIds, List.getElem?_map, hk]
  exact List.getElem?_inj hlt hu (by rw [e1, e2, h])

/-- The signals of one call: none; or the insertion of the row after the last,
when no entry has the id; or `dataChanged` for the row of the first entry with
the id, which keeps its id; or the removal of that row. -/
theorem step_signal_cases (fresh : State) (l : List Application) (e : Event) :
    (step fresh l e).2 = [] ∨
    ((∀ a ∈ l, a.appId ≠ e.appId) ∧
      (step fresh l e).2 = [Signal.rowsInserted l.length l.length]) ∨
    (∃ pre a b post, l = pre ++ a :: post ∧ a.appId = e.appId ∧ b.appId = e.appId ∧
      (step fresh l e).1 = pre ++ b :: post ∧
      (step fresh l e).2 = [Signal.dataChanged pre.length pre.length]) ∨
    (∃ pre a post, l = pre ++ a :: post ∧ a.appId = e.appId ∧
      (step fresh l e).1 = pre ++ post ∧
      (step fresh l e).2 = [Signal.rowsRemoved pre.length pre.length]) := by
  cases e with
  | applicationAdded appId pid =>
    rcases first_match_cases appId l with hn | ⟨pre, a, post, rfl, rfl, hpre⟩
    · right; left
      exact ⟨hn, by simp [step, applicationAdded_fresh fresh l appId pid hn]⟩
    · right; right; left
      refine ⟨pre, a, (a.insertPid pid).setState State.Running, post, rfl, rfl, rfl, ?_, ?_⟩ <;>
        simp [step, applicationAdded_found fresh pre a post pid hpre]
  | applicationRemoved appId pid =>
    rcases first_match_cases appId l with hn | ⟨pre, a, post, rfl, rfl, hpre⟩
    · left; simp [step, applicationRemoved_absent l appId pid hn]
    · have hres := applicationRemoved_found pre a post pid hpre
      by_cases h1 : (a.removePid pid).m_pids.card > 0
      · rw [if_pos h1] at hres
        left; simp [step, hres]
      · rw [if_neg h1] at hres
        by_cases h2 : (a.removePid pid).isPinned = true
        · rw [if_pos h2] at hres
          right; right; left
          refine ⟨pre, a, ((a.removePid pid).setState State.NotRunning).setFocused false, post,
            rfl, rfl, rfl, ?_, ?_⟩ <;> simp [step, hres]
        · rw [if_neg h2] at hres
          right; right; right
          refine ⟨pre, a, post, rfl, rfl, ?_, ?_⟩ <;> simp [step, hres]
  | applicationFocused appId =>
    rcases first_match_cases appId l with hn | ⟨pre, a, post, rfl, rfl, hpre⟩
    · left; simp [step, applicationFocused_absent l appId hn]
    · right; right; left
      refine ⟨pre, a, a.setFocused true, post, rfl, rfl, rfl, ?_, ?_⟩ <;>
        simp [step, applicationFocused_found pre a post hpre]
  | applicationUnfocused appId =>
    rcases first_match_cases appId l with hn | ⟨pre, a, post, rfl, rfl, hpre⟩
    · left; simp [step, applicationUnfocused_absent l appId hn]
    · right; right; left
      refine ⟨pre, a, a.setFocused false, post, rfl, rfl, rfl, ?_, ?_⟩ <;>
        simp [step, applicationUnfocused_found pre a post hpre]
  | pin appId =>
    rcases first_match_cases appId l with hn | ⟨pre, a, post, rfl, rfl, hpre⟩
    · left; simp [step, pin_absent l appId hn]
    · right; right; left
      refine ⟨pre, a, a.setPinned true, post, rfl, rfl, rfl, ?_, ?_⟩ <;>
        simp [step, pin_found pre a post hpre]
  | unpin appId =>
    rcases first_match_cases appId l with hn | ⟨pre, a, post, rfl, rfl, hpre⟩
    · left; simp [step, unpin_absent l appId hn]
    · have hres := unpin_found pre a post hpre
      by_cases h1 : a.isRunning = true
      · rw [if_pos h1] at hres
        right; right; left
        refine ⟨pre, a, a.setPinned false, post, rfl, rfl, rfl, ?_, ?_⟩ <;> simp [step, hres]
      · rw [if_neg h1] at hres
        right; right; right
        refine ⟨pre, a, post, rfl, rfl, ?_, ?_⟩ <;> simp [step, hres]

/-- An insertion signalled by applicationAdded names the row after the last
old row, and exactly one entry is appended. -/
theorem applicationAdded_insertion_range (fresh : State) (l : List Application)
    (appId : String) (pid : Int) (first last : Nat)
    (h : Signal.rowsInserted first last ∈ (applicationAdded fresh l appId pid).2) :
    first = l.length ∧ last - first + 1 = 1 ∧
    (applicationAdded fresh l appId pid).1.length = l.length + 1 ∧
    (applicationAdded fresh l appId pid).1.length = last + 1 := by
  rcases first_match_cases appId l with hn | ⟨pre, a, post, rfl, rfl, hpre⟩
  · rw [applicationAdded_fresh fresh l appId pid hn] at h ⊢
    simp only [List.mem_singleton, Signal.rowsInserted.injEq] at h
    rcases h with ⟨rfl, rfl⟩
    simp
  · rw [applicationAdded_found fresh pre a post pid hpre] at h
    simp at h

/-- C18. At most one observable change per notification, at the right position:
on a list with distinct ids, one applicationAdded, applicationRemoved,
applicationFocused or applicationUnfocused notification emits at most one model
signal; a `dataChanged` or `rowsRemoved` signal names a single row, and that
row is the one row of the list whose entry has the id of the notification
(for `dataChanged` the entry at that row still has the id afterwards). -/
theorem notification_one_signal (fresh : State) (m_list : List Application) (e : Event)
    (hu : (appIds m_list).Nodup) (hn : e.isNotification = true) :
    (step fresh m_list e).2.length ≤ 1 ∧
    (∀ i j, Signal.dataChanged i j ∈ (step fresh m_list e).2 →
      j = i ∧ (∃ a, m_list[i]? = some a ∧ a.appId = e.appId) ∧
      (∃ b, (step fresh m_list e).1[i]? = some b ∧ b.appId = e.appId) ∧
      ∀ k c, m_list[k]? = some c → c.appId = e.appId → k = i) ∧
    (∀ i j, Signal.rowsRemoved i j ∈ (step fresh m_list e).2 →
      j = i ∧ (∃ a, m_list[i]? = some a ∧ a.appId = e.appId) ∧
      ∀ k c, m_list[k]? = some c → c.appId = e.appId → k = i) := by
  have _ := hn
  rcases step_signal_cases fresh m_list e with h0 | ⟨_, h1⟩ |
      ⟨pre, a, b, post, hl, ha, hb, hres, hsig⟩ | ⟨pre, a, post, hl, ha, _, hsig⟩
  · rw [h0]; simp
  · rw [h1]; simp
  · rw [hsig]
    have hrow : m_list[pre.length]? = some a := by rw [hl]; exact getElem?_split pre post a
    refine ⟨by simp, ?_, by simp⟩
    intro i j hm
    simp only [List.mem_singleton, Signal.dataChanged.injEq] at hm
    rcases hm with ⟨rfl, rfl⟩
    refine ⟨rfl, ⟨a, hrow, ha⟩, ⟨b, ?_, hb⟩, ?_⟩
    · rw [hres]; exact getElem?_split pre post b
    · intro k c hk hc
      exact unique_row m_list hu k pre.length c a hk hrow (hc.trans ha.symm)
  · rw [hsig]
    have hrow : m_list[pre.length]? = some a := by rw [hl]; exact getElem?_split pre post a
    refine ⟨by simp, by simp, ?_⟩
    intro i j hm
    simp only [List.mem_singleton, Signal.rowsRemoved.injEq] at hm
    rcases hm with ⟨rfl, rfl⟩
    refine ⟨rfl, ⟨a, hrow, ha⟩, ?_⟩
    intro k c hk hc
    exact unique_row m_list hu k pre.length c a hk hrow (hc.trans ha.symm)

/-- Witness for C18: the last process of the unpinned entry "editor" at row 1
ends, and the removal of row 1 is the one signal. -/
theorem notification_one_signal_witness :
    ((appIds [filesEntry, editorRunning, dictionaryEntry]).Nodup ∧
      (Event.applicationRemoved "editor" 200).isNotification = true ∧
      Signal.rowsRemoved 1 1 ∈ (step freshState [filesEntry, editorRunning, dictionaryEntry]
        (Event.applicationRemoved "editor" 200)).2) ∧
    (step freshState [filesEntry, editorRunning, dictionaryEntry]
      (Event.applicationRemoved "editor" 200)).2.length ≤ 1 ∧
    ∃ a, [filesEntry, editorRunning, dictionaryEntry][1]? = some a ∧
      a.appId = (Event.applicationRemoved "editor" 200).appId := by
  have h := notification_one_signal freshState [filesEntry, editorRunning, dictionaryEntry]
    (Event.applicationRemoved "editor" 200) (by decide) (by decide)
  exact ⟨by decide, h.1, (h.2.2 1 1 (by decide)).2.1⟩

/-- C19. The insertion announced by the constructor: `beginInsertRows` names the
rows 0 to 2 of the empty list, three rows, while two entries are appended, so
the row count afterwards is 2 and not `last + 1 = 3`. -/
theorem seed_insertion_range_mismatch :
    constructed.2 = [Signal.rowsInserted 0 2] ∧
    constructed.1.length = 2 ∧
    (2 - 0 + 1 : Nat) ≠ constructed.1.length - 0 ∧
    constructed.1.length ≠ 2 + 1 := by
  decide

/-- C20. Focus is not tied to the running state and is not exclusive.  After
applicationFocused on the seeded "papyros-files", which has no process, that
entry is focused and not running; the same holds after its one process has
started and ended, where the handler itself has set `NotRunning`.  After
applicationFocused on both seeded ids, two entries with different ids are
focused.  In general applicationFocused(id) leaves every focused entry
focused, and focuses the entry with the id whatever its process set is. -/
theorem focus_not_tied_to_running :
    (∃ a ∈ run freshState constructed.1 [Event.applicationFocused "papyros-files"],
      a.isFocused = true ∧ a.isRunning = false ∧ a.m_pids = ∅) ∧
    (∃ a ∈ run freshState constructed.1
        [Event.applicationAdded "papyros-files" 100, Event.applicationRemoved "papyros-files" 100,
          Event.applicationFocused "papyros-files"],
      a.isFocused = true ∧ a.isRunning = false ∧ a.m_pids = ∅) ∧
    (∃ a ∈ run freshState constructed.1
        [Event.applicationFocused "papyros-files", Event.applicationFocused "gnome-dictionary"],
      ∃ b ∈ run freshState constructed.1
        [Event.applicationFocused "papyros-files", Event.applicationFocused "gnome-dictionary"],
      a.appId ≠ b.appId ∧ a.isFocused = true ∧ b.isFocused = true) ∧
    (∀ (l : List Application) (appId : String),
      (∀ c ∈ l, c.isFocused = true →
        ∃ d ∈ (applicationFocused l appId).1,
          d.appId = c.appId ∧ d.isFocused = true ∧ d.m_pids = c.m_pids) ∧
      (∀ c ∈ l, c.appId = appId →
        ∃ d ∈ (applicationFocused l appId).1, d.appId = appId ∧ d.isFocused = true)) := by
  refine ⟨by decide, by decide, by decide, ?_⟩
  intro l appId
  rcases first_match_cases appId l with hn | ⟨pre, a, post, rfl, rfl, hpre⟩
  · rw [applicationFocused_absent l appId hn]
    refine ⟨fun c hc hf => ⟨c, hc, rfl, hf, rfl⟩, ?_⟩
    intro c hc hid
    exact absurd hid (hn c hc)
  · rw [applicationFocused_found pre a post hpre]
    have hmem : a.setFocused true ∈ pre ++ a.setFocused true :: post := by simp
    refine ⟨?_, fun _ _ _ => ⟨a.setFocused true, hmem, rfl, rfl⟩⟩
    intro c hc hf
    rcases List.mem_append.1 hc with hc | hc
    · exact ⟨c, List.mem_append_left _ hc, rfl, hf, rfl⟩
    · rcases List.mem_cons.1 hc with rfl | hc
      · exact ⟨c.setFocused true, hmem, rfl, rfl, rfl⟩
      · exact ⟨c, List.mem_append_right _ (List.mem_cons_of_mem _ hc), rfl, hf, rfl⟩

/-- Witness for C20: applicationFocused("papyros-files") on a list where the
running entry "gnome-dictionary" is focused leaves it focused. -/
theorem focus_not_tied_to_running_witness :
    (dictionaryRunning ∈ [filesEntry, dictionaryRunning] ∧ dictionaryRunning.isFocused = true) ∧
    ∃ d ∈ (applicationFocused [filesEntry, dictionaryRunning] "papyros-files").1,
      d.appId = dictionaryRunning.appId ∧ d.isFocused = true ∧
      d.m_pids = dictionaryRunning.m_pids :=
  ⟨by decide,
    (focus_not_tied_to_running.2.2.2 [filesEntry, dictionaryRunning] "papyros-files").1
      dictionaryRunning (by decide) (by decide)⟩

end LauncherModel
